import Mathlib

/-!
Shallow embedding of the pto IRC-to-Matrix gateway core (src/bridge.rs and
src/matrix/client.rs) and verification of its specification.

The Rust code is single-threaded with respect to all bridge/room state (the
reactor is the sole mutator), so each Rust method that mutates `self` and
emits IRC messages through a callback is embedded as a pure function
`State → State × List Message`, with the emitted messages collected in call
order.  Machine integers do not occur in the modelled core; identifiers are
strings with structural equality, matching the Rust types.

Types declared in modules of the repository that are not part of the given
sources (matrix/events.rs, matrix/model.rs, irc/protocol.rs) are modelled
from their use sites in bridge.rs and from the specification: they are plain
data carriers (tagged variants and record types), and bridge.rs matches on
exactly the constructors reproduced here.
-/

namespace Pto

/-- Modelled from the spec: `UserID` carries `(nickname, homeserver)`
(matrix/model.rs is not among the given sources); structural equality. -/
structure UserID where
  nickname : String
  homeserver : String
  deriving DecidableEq, Repr

/-- Modelled from the spec: `RoomID` carries `(localID, homeserver)`
(matrix/model.rs is not among the given sources); structural equality. -/
structure RoomID where
  id : String
  homeserver : String
  deriving DecidableEq, Repr

/-- Modelled from the spec: `EventID` is an opaque identifier with
string-based equality. -/
abbrev EventID := String

/-- Modelled from the spec and the two match arms of
`Room::handle_event` (bridge.rs 221-226): membership actions. -/
inductive MembershipAction where
  | Join
  | Leave
  deriving DecidableEq, Repr

/-- Modelled from the match arms of `Room::handle_event` and
`Room::handle_with_alias` (bridge.rs 176-233); matrix/events.rs is not among
the given sources. -/
inductive RoomEvent where
  | CanonicalAlias (name : String)
  | JoinRules (rules : String)
  | Create
  | Aliases (aliases : List String)
  | PowerLevels
  | HistoryVisibility (vis : String)
  | Name (user : UserID) (name : String)
  | Avatar (user : UserID) (url : String)
  | Membership (user : UserID) (action : MembershipAction)
  | Message (user : UserID) (text : String)
  | Topic (user : UserID) (topic : String)
  | Unknown (kind : String) (json : String)
  deriving DecidableEq, Repr

/-- Modelled from the use sites in bridge.rs (irc/protocol.rs is not among
the given sources): the IRC command tag. -/
inductive Command where
  | Part
  | Join
  | Privmsg
  | Topic
  | Numeric (code : Nat)
  | Pass
  | Nick
  | User
  | Ping
  | Quit
  deriving DecidableEq, Repr

/-- Modelled from the use sites in bridge.rs: `irc::protocol::Message`
with fields prefix (here `pfx`, since `prefix` is a Lean keyword), command,
args, suffix. -/
structure Message where
  pfx : Option String
  command : Command
  args : List String
  suffix : Option String
  deriving DecidableEq, Repr

/-- Rust's `str::ends_with(pat)` — a suffix check.  Embedded over the
character list of the string (Lean's own `String.endsWith` is semantically
identical but is implemented with well-founded recursion that the kernel
cannot evaluate). -/
def strEndsWith (s pat : String) : Bool :=
  pat.data.isSuffixOf s.data

/-- Rust's `str::trim()` — strip leading and trailing whitespace, embedded
over the character list. -/
def strTrim (s : String) : String :=
  String.mk (((s.data.dropWhile Char.isWhitespace).reverse.dropWhile Char.isWhitespace).reverse)

/-- The sender identity `format!("{}!{}@{}", nickname, nickname, homeserver)`
used throughout bridge.rs (lines 87, 106, 157, 183, 191). -/
def senderOf (u : UserID) : String :=
  u.nickname ++ "!" ++ u.nickname ++ "@" ++ u.homeserver

/-- `struct Room` (bridge.rs 70-79). -/
structure Room where
  id : RoomID
  irc_name : Option String
  canonical_alias : Option String
  join_rules : Option String
  members : List UserID
  aliases : List String
  pending_events : List RoomEvent
  pending_sync : Bool
  deriving DecidableEq, Repr

/-- `Room::new` (bridge.rs 115-126). -/
def Room.new (id : RoomID) : Room :=
  { id := id
    canonical_alias := none
    join_rules := none
    members := []
    pending_events := []
    aliases := []
    pending_sync := true
    irc_name := none }

/-- `Room::handle_part` (bridge.rs 82-100): emit a PART message when the
room has an IRC name and the user is a member, then remove the FIRST
occurrence of the user from `members` (`position` + `remove(idx)`, which is
exactly `List.erase`). -/
def Room.handle_part (r : Room) (user : UserID) : Room × List Message :=
  let msgs : List Message :=
    match r.irc_name with
    | some name =>
      if r.members.contains user then
        [{ pfx := some (senderOf user), command := Command.Part,
           args := [name], suffix := none }]
      else []
    | none => []
  ({ r with members := r.members.erase user }, msgs)

/-- `Room::handle_join` (bridge.rs 102-113): emit a JOIN message when the
room has an IRC name and the user is not yet a member; then
`self.members.push(user)` UNCONDITIONALLY (the push is outside the guard,
so a duplicate member entry is possible). -/
def Room.handle_join (r : Room) (user : UserID) : Room × List Message :=
  let msgs : List Message :=
    match r.irc_name with
    | some name =>
      if !(r.members.contains user) then
        [{ pfx := some (senderOf user), command := Command.Join,
           args := [name], suffix := none }]
      else []
    | none => []
  ({ r with members := r.members ++ [user] }, msgs)

/-- `Room::handle_with_alias` (bridge.rs 176-204): when `irc_name` is
resolved, translate Message/Topic to PRIVMSG/TOPIC, ignore Membership, and
warn-and-drop everything else; when unresolved, push the event onto
`pending_events`. -/
def Room.handle_with_alias (r : Room) (evt : RoomEvent) : Room × List Message :=
  match r.irc_name with
  | some name =>
    match evt with
    | RoomEvent.Membership _ _ => (r, [])
    | RoomEvent.Message user text =>
      (r, [{ pfx := some (senderOf user), command := Command.Privmsg,
             args := [name], suffix := some text }])
    | RoomEvent.Topic user topic =>
      (r, [{ pfx := some (senderOf user), command := Command.Topic,
             args := [name], suffix := some topic }])
    | _ => (r, [])
  | none =>
    ({ r with pending_events := r.pending_events ++ [evt] }, [])

/-- One iteration body of the `while let Some(evt) = self.pending_events.pop()`
loop of `Room::run_pending` (bridge.rs 128-134), with explicit fuel.
`Vec::pop` removes and returns the LAST element, so each iteration takes
`getLast?` and keeps `dropLast`.  When `irc_name` is resolved each iteration
strictly shrinks the buffer, so fuel `pending_events.length` reproduces the
Rust loop exactly; when `irc_name` is `none` the Rust loop would re-push the
popped event and never terminate (that path is unreachable: `run_pending` is
only called at the end of `finish_sync`, after `irc_name` is set). -/
def Room.run_pending_loop : Nat → Room → Room × List Message
  | 0, r => (r, [])
  | Nat.succ fuel, r =>
    match r.pending_events.getLast? with
    | none => (r, [])
    | some evt =>
      let r1 : Room := { r with pending_events := r.pending_events.dropLast }
      let step := r1.handle_with_alias evt
      let rest := Room.run_pending_loop fuel step.1
      (rest.1, step.2 ++ rest.2)

/-- `Room::run_pending` (bridge.rs 128-134).  The function begins with
`assert!(self.pending_sync)`; `pending_sync` is set to `true` by `Room::new`
and never written again anywhere in the program, so the assertion always
passes (this invariant is proved below); the assertion is therefore not
modelled as a failure case. -/
def Room.run_pending (r : Room) : Room × List Message :=
  Room.run_pending_loop r.pending_events.length r

/-- The name-resolution prelude of `Room::finish_sync` (bridge.rs 138-155):
the first alias ending in `format!(":{}", my_uid.homeserver).trim()`
overwrites `irc_name` (the `for` loop with `break`); otherwise, when
`irc_name` is still `None`, fall back to the canonical alias, else the first
alias, else the synthesized `#<id>:<homeserver>`. -/
def Room.resolve_name (r : Room) (my_uid : UserID) : Option String :=
  let matched : Option String :=
    r.aliases.find? (fun a => strEndsWith a (strTrim (":" ++ my_uid.homeserver)))
  let irc1 : Option String :=
    match matched with
    | some a => some a
    | none => r.irc_name
  match irc1 with
  | none =>
    match r.canonical_alias with
    | none =>
      match r.aliases with
      | [] => some ("#" ++ r.id.id ++ ":" ++ r.id.homeserver)
      | a :: _ => some a
    | some a => some a
  | some a => some a

/-- `Room::finish_sync` (bridge.rs 136-174): resolve `irc_name` via
`resolve_name`, emit a JOIN for the logged-in user and a 353 roster numeric
(both with `irc_name.clone().unwrap()`, modelled by `getD`: the resolution
always yields `some`, proved below), then drain the pending buffer through
`run_pending`. -/
def Room.finish_sync (r : Room) (my_uid : UserID) : Room × List Message :=
  let irc2 : Option String := r.resolve_name my_uid
  let name : String := irc2.getD ""
  let r1 : Room := { r with irc_name := irc2 }
  let joinMsg : Message :=
    { pfx := some (senderOf my_uid), command := Command.Join,
      args := [name], suffix := none }
  let rosterMsg : Message :=
    { pfx := some "pto", command := Command.Numeric 353,
      args := [my_uid.nickname, "@", name],
      suffix := some (String.intercalate " " (r1.members.map (fun u => u.nickname))) }
  let rest := r1.run_pending
  (rest.1, [joinMsg, rosterMsg] ++ rest.2)

/-- `Room::handle_event` (bridge.rs 206-233): the dispatch used for every
room-scoped event; the final `_` arm routes Message and Topic through
`handle_with_alias`. -/
def Room.handle_event (r : Room) (evt : RoomEvent) : Room × List Message :=
  match evt with
  | RoomEvent.CanonicalAlias name => ({ r with canonical_alias := some name }, [])
  | RoomEvent.JoinRules rules => ({ r with join_rules := some rules }, [])
  | RoomEvent.Create => (r, [])
  | RoomEvent.Aliases aliases => ({ r with aliases := aliases }, [])
  | RoomEvent.PowerLevels => (r, [])
  | RoomEvent.HistoryVisibility _ => (r, [])
  | RoomEvent.Name _ _ => (r, [])
  | RoomEvent.Avatar _ _ => (r, [])
  | RoomEvent.Membership user MembershipAction.Join => r.handle_join user
  | RoomEvent.Membership user MembershipAction.Leave => r.handle_part user
  | RoomEvent.Unknown _ _ => (r, [])
  | _ => r.handle_with_alias evt

/-- Modelled from the match arms of `Bridge::handle_matrix` (bridge.rs
297-304); matrix/events.rs is not among the given sources.  The `Unknown`
constructor stands for every other event category (warned and dropped). -/
inductive EventData where
  | Room (id : RoomID) (event : RoomEvent)
  | Typing (s : String)
  | EndOfSync
  | Unknown (kind : String)
  deriving DecidableEq, Repr

/-- Modelled from the use sites: `matrix::events::Event` carries an optional
event id and a category-tagged payload (spec section 6; client.rs 209-212
constructs one with named fields `data` and `id`). -/
structure Event where
  id : Option EventID
  data : EventData
  deriving DecidableEq, Repr

/-- The end-of-sync marker appended by `Client::sync` (matrix/client.rs
209-212): `Event { data: EventData::EndOfSync, id: None }`. -/
def syncEndMarker : Event :=
  { id := none, data := EventData.EndOfSync }

/-- `struct Bridge` (bridge.rs 35-40), restricted to the state the core
mutates: the room table (a `HashMap`, embedded as an association list in
insertion order), the dedup ledger `seen_events: Vec<EventID>`, and the
Matrix client's logged-in identity `matrix.uid` (the only field of the
Matrix client the event-handling code reads). -/
structure Bridge where
  rooms : List (RoomID × Room)
  seen_events : List EventID
  uid : Option UserID
  deriving DecidableEq, Repr

/-- `Bridge::room_from_matrix` (bridge.rs 238-246): get-or-create; returns
the updated bridge and the room the handler will mutate. -/
def Bridge.room_from_matrix (b : Bridge) (id : RoomID) : Bridge × Room :=
  match (b.rooms.find? (fun p => p.1 = id)) with
  | some p => (b, p.2)
  | none => ({ b with rooms := b.rooms ++ [(id, Room.new id)] }, Room.new id)

/-- Writing the mutated room back into the table models the `&mut Room`
returned by `room_from_matrix` (the Rust handler mutates the room in
place inside the map). -/
def Bridge.setRoom (b : Bridge) (id : RoomID) (room : Room) : Bridge :=
  { b with rooms := b.rooms.map (fun p => if p.1 = id then (p.1, room) else p) }

/-- `Bridge::finish_sync` (bridge.rs 278-283): run `Room::finish_sync` on
every room in table order, with `matrix.uid.unwrap()` as the logged-in
identity (the `unwrap` is modelled by `getD`; it is only reached after a
successful login has set `uid`). -/
def Bridge.finish_sync (b : Bridge) : Bridge × List Message :=
  let my : UserID := b.uid.getD { nickname := "", homeserver := "" }
  let folded :=
    b.rooms.foldl
      (fun acc p =>
        let res := p.2.finish_sync my
        (acc.1 ++ [(p.1, res.1)], acc.2 ++ res.2))
      (([] : List (RoomID × Room)), ([] : List Message))
  ({ b with rooms := folded.1 }, folded.2)

/-- The dispatch on `evt.data` inside `Bridge::handle_matrix` (bridge.rs
297-304): room-scoped events go through get-or-create and
`Room::handle_event`; typing and unknown categories are dropped; the
end-of-sync marker triggers `Bridge::finish_sync`. -/
def Bridge.dispatch_event (b : Bridge) (d : EventData) : Bridge × List Message :=
  match d with
  | EventData.Room room_id room_event =>
    let got := b.room_from_matrix room_id
    let handled := got.2.handle_event room_event
    (got.1.setRoom room_id handled.1, handled.2)
  | EventData.Typing _ => (b, [])
  | EventData.EndOfSync => b.finish_sync
  | EventData.Unknown _ => (b, [])

/-- `Bridge::handle_matrix` (bridge.rs 285-325): drop the event when its id
is present and already in `seen_events`; otherwise dispatch on the payload,
record the id (if present) into `seen_events`, and flush the collected
messages to the client.  The flushed messages are the second component; the
io::Result plumbing of the actual socket writes is not part of the state
machine. -/
def Bridge.handle_matrix (b : Bridge) (evt : Event) : Bridge × List Message :=
  let duplicate : Bool :=
    match evt.id with
    | some id => b.seen_events.contains id
    | none => false
  if duplicate then (b, [])
  else
    let dispatched := b.dispatch_event evt.data
    let b2 : Bridge :=
      match evt.id with
      | some id => { dispatched.1 with seen_events := dispatched.1.seen_events ++ [id] }
      | none => dispatched.1
    (b2, dispatched.2)

/-- `Bridge::room_from_irc` (bridge.rs 248-261): linear scan over the room
table; the loop overwrites `room_id` on every match without breaking, so the
LAST room (in iteration order) whose `irc_name` equals the requested name
wins; `none` when no room exposes that name. -/
def Bridge.room_from_irc (b : Bridge) (name : String) : Option RoomID :=
  b.rooms.foldl
    (fun acc p => if p.2.irc_name = some name then some p.2.id else acc)
    none

/-- A Protocol-B message-send request, as built by the `Command::Privmsg`
arm of `Bridge::handle_client` (bridge.rs 400-413): an `EventData::Room`
value handed to `matrix.send`. -/
structure SendRequest where
  room : RoomID
  event : RoomEvent
  deriving DecidableEq, Repr

/-- The `Command::Privmsg` arm of `Bridge::handle_client` (bridge.rs
400-413): resolve the target channel via `room_from_irc`; on `None`,
return with no side effect (nothing is sent to either side and no state
changes); on `Some`, build the Matrix message event for `matrix.uid`,
send it, and push the EventID returned by the server onto `seen_events`.
`sendResult` is the EventID the external `matrix.send` call returns. -/
def Bridge.handle_privmsg (b : Bridge) (target : String) (body : String)
    (sendResult : EventID) : Bridge × Option SendRequest :=
  match b.room_from_irc target with
  | none => (b, none)
  | some rid =>
    let my : UserID := b.uid.getD { nickname := "", homeserver := "" }
    ({ b with seen_events := b.seen_events ++ [sendResult] },
     some { room := rid, event := RoomEvent.Message my body })

/-- Observable outcome of the `Command::User` arm of `Bridge::handle_client`
(bridge.rs 372-388) once both username and password are present. -/
structure UserCmdOutcome where
  syncStarted : Bool
  pollStarted : Bool
  welcomeSent : Bool
  failureReportedToClient : Bool
  panicked : Bool
  deriving DecidableEq, Repr

/-- The `(Some username, Some password)` branch of the `Command::User` arm
(bridge.rs 376-385):
`matrix.login(..).and_then(|_| start_matrix(..)).and_then(|_| welcome(..)).expect("Could not login!")`.
When `login` returns `Err`, both `and_then` continuations are skipped and
`expect` panics: no sync is performed, no poll loop is started, nothing is
written to the local connection (the panic text goes to the process, not the
IRC client).  When `login` succeeds but `sync` inside `start_matrix` fails,
the sync was attempted, the poll loop is not started, and `expect` panics
likewise.  On full success the poll loop starts and the welcome reply is
sent.  `loginOk` and `syncOk` are the results of the two external calls. -/
def handle_user_cmd (loginOk : Bool) (syncOk : Bool) : UserCmdOutcome :=
  if loginOk then
    if syncOk then
      { syncStarted := true, pollStarted := true, welcomeSent := true,
        failureReportedToClient := false, panicked := false }
    else
      { syncStarted := true, pollStarted := false, welcomeSent := false,
        failureReportedToClient := false, panicked := true }
  else
    { syncStarted := false, pollStarted := false, welcomeSent := false,
      failureReportedToClient := false, panicked := true }

/-- Per-event emission of `Room::handle_with_alias` in the resolved state
(bridge.rs 178-200), as a standalone function of the resolved name: used to
state what a replay of the pending buffer produces. -/
def emit1 (name : String) (evt : RoomEvent) : List Message :=
  match evt with
  | RoomEvent.Message user text =>
    [{ pfx := some (senderOf user), command := Command.Privmsg,
       args := [name], suffix := some text }]
  | RoomEvent.Topic user topic =>
    [{ pfx := some (senderOf user), command := Command.Topic,
       args := [name], suffix := some topic }]
  | _ => []

/-- Concatenated emission of a list of replayed events. -/
def emitAll (name : String) : List RoomEvent → List Message
  | [] => []
  | e :: rest => emit1 name e ++ emitAll name rest

/-- The JOIN notification shape of bridge.rs 105-110 and 156-161. -/
def joinNotice (u : UserID) (name : String) : Message :=
  { pfx := some (senderOf u), command := Command.Join,
    args := [name], suffix := none }

/-- The PART notification shape of bridge.rs 86-91. -/
def partNotice (u : UserID) (name : String) : Message :=
  { pfx := some (senderOf u), command := Command.Part,
    args := [name], suffix := none }

/-- The 353 roster notification shape of bridge.rs 162-171, listing the
nicknames of the given room's members. -/
def rosterNotice (r : Room) (me : UserID) (name : String) : Message :=
  { pfx := some "pto", command := Command.Numeric 353,
    args := [me.nickname, "@", name],
    suffix := some (String.intercalate " " (r.members.map (fun u => u.nickname))) }

/-- Sample remote user on homeserver `h`. -/
def alice : UserID :=
  { nickname := "alice", homeserver := "h" }

/-- Sample logged-in user on homeserver `h`. -/
def selfUser : UserID :=
  { nickname := "me", homeserver := "h" }

/-- Sample logged-in user on homeserver `home.org` (spec example). -/
def selfHome : UserID :=
  { nickname := "me", homeserver := "home.org" }

/-- Sample room id. -/
def sampleRoomId : RoomID :=
  { id := "r", homeserver := "h" }

/-- A pending room with one matching alias and two buffered chat messages,
buffered in the order "one" then "two". -/
def bufferedRoom : Room :=
  { Room.new sampleRoomId with
      aliases := ["#x:h"]
      pending_events := [RoomEvent.Message alice "one", RoomEvent.Message alice "two"] }

/-- An active (name-resolved) room with one member. -/
def activeRoom : Room :=
  { Room.new sampleRoomId with
      irc_name := some "#x:h"
      members := [alice] }

/-- A bridge holding the sample active room, logged in as `selfUser`. -/
def sampleBridge : Bridge :=
  { rooms := [(sampleRoomId, activeRoom)], seen_events := [], uid := some selfUser }

/-! ### Supporting lemmas -/

lemma handle_with_alias_resolved (r : Room) (nm : String) (h : r.irc_name = some nm)
    (evt : RoomEvent) : r.handle_with_alias evt = (r, emit1 nm evt) := by
  cases evt <;> simp [Room.handle_with_alias, emit1, h]

lemma emitAll_append (nm : String) (l1 l2 : List RoomEvent) :
    emitAll nm (l1 ++ l2) = emitAll nm l1 ++ emitAll nm l2 := by
  induction l1 with
  | nil => simp [emitAll]
  | cons e rest ih => simp [emitAll, ih]

lemma run_pending_loop_resolved (fuel : Nat) :
    ∀ (r : Room) (nm : String), r.irc_name = some nm →
      r.pending_events.length ≤ fuel →
      Room.run_pending_loop fuel r
        = ({ r with pending_events := [] }, emitAll nm r.pending_events.reverse) := by
  induction fuel with
  | zero =>
    intro r nm h hf
    have hp : r.pending_events = [] := List.length_eq_zero.mp (Nat.le_zero.mp hf)
    have he : ({ r with pending_events := [] } : Room) = r := by
      cases r; simp_all
    simp [Room.run_pending_loop, he, hp, emitAll]
  | succ n ih =>
    intro r nm h hf
    cases hL : r.pending_events.getLast? with
    | none =>
      have hp : r.pending_events = [] := List.getLast?_eq_none_iff.mp hL
      have he : ({ r with pending_events := [] } : Room) = r := by
        cases r; simp_all
      simp [Room.run_pending_loop, hL, he, hp, emitAll]
    | some evt =>
      obtain ⟨l2, hsplit⟩ := List.getLast?_eq_some_iff.mp hL
      have h1 : ({ r with pending_events := r.pending_events.dropLast } : Room).irc_name
          = some nm := h
      have hlen : ({ r with pending_events := r.pending_events.dropLast } : Room).pending_events.length ≤ n := by
        simp only [hsplit]
        simp only [List.dropLast_concat]
        rw [hsplit] at hf
        simp at hf
        omega
      have hrec := ih { r with pending_events := r.pending_events.dropLast } nm h1 hlen
      simp only [Room.run_pending_loop, hL]
      rw [handle_with_alias_resolved _ _ h1]
      rw [hrec]
      simp only [hsplit, List.dropLast_concat, List.reverse_append, List.reverse_cons,
        List.reverse_nil, List.nil_append, List.singleton_append]
      simp [emitAll]

lemma run_pending_resolved (r : Room) (nm : String) (h : r.irc_name = some nm) :
    r.run_pending = ({ r with pending_events := [] }, emitAll nm r.pending_events.reverse) :=
  run_pending_loop_resolved r.pending_events.length r nm h (Nat.le_refl _)

lemma resolve_name_isSome (r : Room) (me : UserID) : (r.resolve_name me).isSome := by
  unfold Room.resolve_name
  cases r.aliases.find? (fun a => strEndsWith a (strTrim (":" ++ me.homeserver))) with
  | some a => simp
  | none =>
    cases r.irc_name with
    | some a => simp
    | none =>
      cases r.canonical_alias with
      | some a => simp
      | none => cases r.aliases <;> simp

lemma finish_sync_resolved (r : Room) (me : UserID) (nm : String)
    (h : r.resolve_name me = some nm) :
    r.finish_sync me
      = ({ r with irc_name := some nm, pending_events := [] },
         [joinNotice me nm, rosterNotice r me nm] ++ emitAll nm r.pending_events.reverse) := by
  unfold Room.finish_sync
  rw [h]
  have hname : ({ r with irc_name := some nm } : Room).irc_name = some nm := rfl
  simp only [run_pending_resolved _ _ hname]
  simp [joinNotice, rosterNotice]

lemma handle_with_alias_fields (r : Room) (evt : RoomEvent) :
    ((r.handle_with_alias evt).1).irc_name = r.irc_name
  ∧ ((r.handle_with_alias evt).1).pending_sync = r.pending_sync
  ∧ ((r.handle_with_alias evt).1).members = r.members := by
  cases h : r.irc_name <;> cases evt <;> simp [Room.handle_with_alias, h]

lemma handle_event_preserves (r : Room) (evt : RoomEvent) :
    ((r.handle_event evt).1).irc_name = r.irc_name
  ∧ ((r.handle_event evt).1).pending_sync = r.pending_sync := by
  cases evt with
  | Membership u a =>
    cases a <;> simp [Room.handle_event, Room.handle_join, Room.handle_part]
  | Message u t =>
    have h := handle_with_alias_fields r (RoomEvent.Message u t)
    exact ⟨h.1, h.2.1⟩
  | Topic u t =>
    have h := handle_with_alias_fields r (RoomEvent.Topic u t)
    exact ⟨h.1, h.2.1⟩
  | _ => exact ⟨rfl, rfl⟩

lemma handle_event_pending_of_resolved (r : Room) (evt : RoomEvent) (nm : String)
    (h : r.irc_name = some nm) :
    ((r.handle_event evt).1).pending_events = r.pending_events := by
  cases evt with
  | Membership u a =>
    cases a <;> simp [Room.handle_event, Room.handle_join, Room.handle_part]
  | Message u t => simp [Room.handle_event, Room.handle_with_alias, h]
  | Topic u t => simp [Room.handle_event, Room.handle_with_alias, h]
  | _ => rfl

lemma dispatch_event_seen (b : Bridge) (d : EventData) :
    ((b.dispatch_event d).1).seen_events = b.seen_events := by
  cases d with
  | Room id e =>
    simp only [Bridge.dispatch_event]
    unfold Bridge.room_from_matrix
    cases b.rooms.find? (fun p => p.1 = id) <;> simp [Bridge.setRoom]
  | Typing s => rfl
  | EndOfSync => rfl
  | Unknown s => rfl

lemma handle_join_eq (r : Room) (u : UserID) (nm : String) (h : r.irc_name = some nm) :
    r.handle_join u = ({ r with members := r.members ++ [u] },
      if u ∈ r.members then [] else [joinNotice u nm]) := by
  by_cases hm : u ∈ r.members <;>
    simp [Room.handle_join, h, hm, joinNotice]

lemma handle_part_eq (r : Room) (u : UserID) (nm : String) (h : r.irc_name = some nm) :
    r.handle_part u = ({ r with members := r.members.erase u },
      if u ∈ r.members then [partNotice u nm] else []) := by
  by_cases hm : u ∈ r.members <;>
    simp [Room.handle_part, h, hm, partNotice]

lemma room_scan_none (target : String) (l : List (RoomID × Room))
    (h : ∀ p ∈ l, p.2.irc_name ≠ some target) :
    l.foldl (fun acc p => if p.2.irc_name = some target then some p.2.id else acc) none
      = none := by
  induction l with
  | nil => rfl
  | cons p rest ih =>
    simp only [List.foldl_cons]
    rw [if_neg (h p (by simp))]
    exact ih (fun q hq => h q (by simp [hq]))

/-! ### Claims -/

/-- C2 (counterexample): the claim states that after a Join event `members`
never contains duplicate entries and that two consecutive Join events for
the same user leave the user in `members` exactly once.  On the code,
`handle_join` pushes unconditionally (bridge.rs 112 is outside the guard of
bridge.rs 104), so two Join events for `alice` in a resolved, initially
empty room leave `members = [alice, alice]`. -/
theorem claim_C2_counterexample :
    ((({ activeRoom with members := [] } : Room).handle_join alice).1.handle_join
        alice).1.members = [alice, alice]
  ∧ ¬ ((({ activeRoom with members := [] } : Room).handle_join alice).1.handle_join
        alice).1.members.Nodup := by
  exact ⟨rfl, by decide⟩

/-- C2 (amended): a JOIN notification is emitted only when displayName is
set and the user was not already a member — so of two consecutive Join
events for the same user only the first emits a notification — but the user
is appended to `members` unconditionally (not an idempotent add), so after
the two Join events the user's entry count has grown by two and the user
appears in `members` twice when starting from zero occurrences. -/
theorem claim_C2_amended (r : Room) (u : UserID) (nm : String)
    (h : r.irc_name = some nm) :
    ((r.handle_join u).1).members = r.members ++ [u]
  ∧ (r.handle_join u).2 = (if u ∈ r.members then [] else [joinNotice u nm])
  ∧ ((r.handle_join u).1.handle_join u).2 = []
  ∧ (((r.handle_join u).1.handle_join u).1).members.count u
      = r.members.count u + 2 := by
  have h1 := handle_join_eq r u nm h
  have hr1 : (r.handle_join u).1 = { r with members := r.members ++ [u] } := by
    rw [h1]
  have h2 := handle_join_eq { r with members := r.members ++ [u] } u nm h
  refine ⟨by rw [h1], by rw [h1], ?_, ?_⟩
  · rw [hr1, h2]
    simp
  · rw [hr1, h2]
    simp

/-- C2 witness: the amended statement evaluated on a resolved room that
does not yet contain `alice`. -/
theorem claim_C2_witness :
    ({ activeRoom with members := [] } : Room).irc_name = some "#x:h"
  ∧ (((({ activeRoom with members := [] } : Room).handle_join alice).1).members
      = ({ activeRoom with members := [] } : Room).members ++ [alice]
    ∧ (({ activeRoom with members := [] } : Room).handle_join alice).2
      = (if alice ∈ ({ activeRoom with members := [] } : Room).members then []
         else [joinNotice alice "#x:h"])
    ∧ ((({ activeRoom with members := [] } : Room).handle_join alice).1.handle_join
        alice).2 = []
    ∧ (((({ activeRoom with members := [] } : Room).handle_join alice).1.handle_join
        alice).1).members.count alice
      = ({ activeRoom with members := [] } : Room).members.count alice + 2) :=
  ⟨rfl, claim_C2_amended { activeRoom with members := [] } alice "#x:h" rfl⟩

/-- C10: a Membership Leave event removes at most one occurrence of the
user (the first, via `position` + `remove`); with a duplicated member the
user remains a member after one Leave, and a second Leave emits another
PART notification. -/
theorem claim_C10 (r : Room) (u : UserID) (nm : String)
    (h : r.irc_name = some nm) :
    ((r.handle_part u).1).members = r.members.erase u
  ∧ ((r.handle_part u).1).members.count u = r.members.count u - 1
  ∧ (2 ≤ r.members.count u →
        u ∈ ((r.handle_part u).1).members
      ∧ (r.handle_part u).2 = [partNotice u nm]
      ∧ ((r.handle_part u).1.handle_part u).2 = [partNotice u nm]) := by
  have h1 := handle_part_eq r u nm h
  have hr1 : (r.handle_part u).1 = { r with members := r.members.erase u } := by
    rw [h1]
  refine ⟨by rw [h1], ?_, ?_⟩
  · rw [hr1]
    simp [List.count_erase_self]
  · intro hc
    have hmem : u ∈ r.members := by
      have hpos : 0 < r.members.count u := by omega
      exact List.count_pos_iff.mp hpos
    have hmem2 : u ∈ r.members.erase u := by
      have hpos : 0 < (r.members.erase u).count u := by
        rw [List.count_erase_self]
        omega
      exact List.count_pos_iff.mp hpos
    have h2 := handle_part_eq { r with members := r.members.erase u } u nm h
    refine ⟨by rw [hr1]; exact hmem2, by rw [h1]; simp [hmem], ?_⟩
    rw [hr1, h2]
    simp [hmem2]

/-- C10 witness: a resolved room whose roster contains `alice` twice keeps
her as a member after one Leave, and a second Leave emits another PART. -/
theorem claim_C10_witness :
    ({ activeRoom with members := [alice, alice] } : Room).irc_name = some "#x:h"
  ∧ 2 ≤ ({ activeRoom with members := [alice, alice] } : Room).members.count alice
  ∧ ((({ activeRoom with members := [alice, alice] } : Room).handle_part alice).1).members
      = ({ activeRoom with members := [alice, alice] } : Room).members.erase alice :=
  ⟨rfl, by decide,
    (claim_C10 { activeRoom with members := [alice, alice] } alice "#x:h" rfl).1⟩

/-- C6: in a room whose displayName is resolved, applying an inbound chat
message from user `u` with body `text` emits exactly one outbound PRIVMSG
whose target is the displayName, whose sender prefix is
`nickname!nickname@homeserver` of `u`, and whose body is the original
text. -/
theorem claim_C6 (r : Room) (nm : String) (u : UserID) (text : String)
    (h : r.irc_name = some nm) :
    r.handle_event (RoomEvent.Message u text)
      = (r, [{ pfx := some (u.nickname ++ "!" ++ u.nickname ++ "@" ++ u.homeserver),
               command := Command.Privmsg, args := [nm], suffix := some text }]) := by
  have hh := handle_with_alias_resolved r nm h (RoomEvent.Message u text)
  calc r.handle_event (RoomEvent.Message u text)
      = r.handle_with_alias (RoomEvent.Message u text) := rfl
    _ = (r, emit1 nm (RoomEvent.Message u text)) := hh
    _ = (r, [{ pfx := some (u.nickname ++ "!" ++ u.nickname ++ "@" ++ u.homeserver),
               command := Command.Privmsg, args := [nm], suffix := some text }]) := rfl

/-- C6 witness: the round trip evaluated on the sample active room. -/
theorem claim_C6_witness :
    activeRoom.irc_name = some "#x:h"
  ∧ activeRoom.handle_event (RoomEvent.Message alice "hello sailor")
      = (activeRoom,
         [{ pfx := some ("alice" ++ "!" ++ "alice" ++ "@" ++ "h"),
            command := Command.Privmsg, args := ["#x:h"],
            suffix := some "hello sailor" }]) :=
  ⟨rfl, claim_C6 activeRoom "#x:h" alice "hello sailor" rfl⟩

/-- C1 (counterexample): the claim states that `finishSync` replays the
buffered `pendingEvents` in FIFO order (oldest first).  The code drains the
buffer with `Vec::pop` (bridge.rs 131), which removes the NEWEST entry
first: with "one" buffered before "two", the replayed PRIVMSG bodies come
out as "two" then "one", not "one" then "two". -/
theorem claim_C1_counterexample :
    ((bufferedRoom.finish_sync selfUser).2.filter
        (fun m => m.command == Command.Privmsg)).map (fun m => m.suffix)
      = [some "two", some "one"]
  ∧ ((bufferedRoom.finish_sync selfUser).2.filter
        (fun m => m.command == Command.Privmsg)).map (fun m => m.suffix)
      ≠ [some "one", some "two"] := by
  exact ⟨by decide, by decide⟩

/-- C1 (amended): for every room whose displayName is unresolved and every
sequence of buffered Message/Topic events, `finishSync` replays the
buffered `pendingEvents` entries in LIFO order (newest first, via `Vec::pop`),
each through `handle_with_alias` — exactly the dispatch `applyEvent` uses for
Message and Topic events — after the JOIN and roster notifications, and none
of them is re-buffered because displayName is resolved before the replay
(the final buffer is empty). -/
theorem claim_C1_amended (r : Room) (me : UserID) (nm : String)
    (_h0 : r.irc_name = none) (_hs : r.pending_sync = true)
    (hres : r.resolve_name me = some nm) :
    (r.finish_sync me).2
      = [joinNotice me nm, rosterNotice r me nm]
        ++ emitAll nm r.pending_events.reverse
  ∧ ((r.finish_sync me).1).pending_events = []
  ∧ (∀ (r2 : Room) (u : UserID) (t : String),
        r2.handle_event (RoomEvent.Message u t)
          = r2.handle_with_alias (RoomEvent.Message u t)
      ∧ r2.handle_event (RoomEvent.Topic u t)
          = r2.handle_with_alias (RoomEvent.Topic u t)) := by
  have hf := finish_sync_resolved r me nm hres
  exact ⟨by rw [hf], by rw [hf], fun r2 u t => ⟨rfl, rfl⟩⟩

/-- C1 witness: the amended replay statement evaluated on the sample
buffered room. -/
theorem claim_C1_witness :
    bufferedRoom.irc_name = none
  ∧ bufferedRoom.pending_sync = true
  ∧ bufferedRoom.resolve_name selfUser = some "#x:h"
  ∧ ((bufferedRoom.finish_sync selfUser).2
      = [joinNotice selfUser "#x:h", rosterNotice bufferedRoom selfUser "#x:h"]
        ++ emitAll "#x:h" bufferedRoom.pending_events.reverse
    ∧ ((bufferedRoom.finish_sync selfUser).1).pending_events = []
    ∧ (∀ (r2 : Room) (u : UserID) (t : String),
          r2.handle_event (RoomEvent.Message u t)
            = r2.handle_with_alias (RoomEvent.Message u t)
        ∧ r2.handle_event (RoomEvent.Topic u t)
            = r2.handle_with_alias (RoomEvent.Topic u t))) :=
  ⟨rfl, rfl, by decide,
    claim_C1_amended bufferedRoom selfUser "#x:h" rfl rfl (by decide)⟩

/-- C3 (counterexample): the claim states that while `syncPending` is true
`displayName` is `None`, and that after `finishSync` completes `syncPending`
is false.  The code never writes `pending_sync` after construction
(bridge.rs sets it only in `Room::new`), so after `finish_sync` the room has
`pending_sync = true` AND a resolved `irc_name` — both conjuncts of the
claim fail. -/
theorem claim_C3_counterexample :
    (((Room.new sampleRoomId).finish_sync selfUser).1).pending_sync = true
  ∧ (((Room.new sampleRoomId).finish_sync selfUser).1).irc_name ≠ none := by
  exact ⟨by decide, by decide⟩

/-- C3 (amended): a fresh room starts with `syncPending = true`, an
unresolved `displayName` and an empty buffer; `finishSync` always leaves
`displayName` resolved (`Some`) and `pendingEvents` drained to empty, but
`syncPending` is never cleared — it remains whatever it was (true for every
room the program constructs); the Pending → Active transition is witnessed
by `displayName` going `None → Some`, and it is never undone: no later
event application changes `displayName` or `syncPending`, and once
`displayName` is resolved no event application refills `pendingEvents`. -/
theorem claim_C3_amended :
    (∀ id, (Room.new id).pending_sync = true
      ∧ (Room.new id).irc_name = none
      ∧ (Room.new id).pending_events = [])
  ∧ (∀ (r : Room) (me : UserID),
        (((r.finish_sync me).1).irc_name).isSome = true
      ∧ ((r.finish_sync me).1).pending_events = []
      ∧ ((r.finish_sync me).1).pending_sync = r.pending_sync)
  ∧ (∀ (r : Room) (evt : RoomEvent),
        ((r.handle_event evt).1).irc_name = r.irc_name
      ∧ ((r.handle_event evt).1).pending_sync = r.pending_sync)
  ∧ (∀ (r : Room) (evt : RoomEvent) (nm : String), r.irc_name = some nm →
        ((r.handle_event evt).1).pending_events = r.pending_events) := by
  refine ⟨fun id => ⟨rfl, rfl, rfl⟩, ?_, ?_, ?_⟩
  · intro r me
    obtain ⟨nm, hnm⟩ := Option.isSome_iff_exists.mp (resolve_name_isSome r me)
    have hf := finish_sync_resolved r me nm hnm
    rw [hf]
    exact ⟨rfl, rfl, rfl⟩
  · exact handle_event_preserves
  · intro r evt nm h
    exact handle_event_pending_of_resolved r evt nm h

/-- C3 witness: the resolved-room clauses evaluated on the sample active
room and a Create event. -/
theorem claim_C3_witness :
    activeRoom.irc_name = some "#x:h"
  ∧ ((activeRoom.handle_event RoomEvent.Create).1).pending_events
      = activeRoom.pending_events :=
  ⟨rfl, claim_C3_amended.2.2.2 activeRoom RoomEvent.Create "#x:h" rfl⟩

/-- C4: an event whose id is already in `seenEvents` is dropped with no
side effects at all (same bridge state, no outbound messages, `seenEvents`
unchanged); consequently delivering the same identified event twice
produces outbound traffic at most on the first delivery — the second
delivery always returns the state unchanged with no messages. -/
theorem claim_C4 :
    (∀ (b : Bridge) (evt : Event) (id : EventID),
        evt.id = some id → id ∈ b.seen_events → b.handle_matrix evt = (b, []))
  ∧ (∀ (b : Bridge) (evt : Event) (id : EventID), evt.id = some id →
        (b.handle_matrix evt).1.handle_matrix evt = ((b.handle_matrix evt).1, [])) := by
  have hdup : ∀ (b : Bridge) (evt : Event) (id : EventID),
      evt.id = some id → id ∈ b.seen_events → b.handle_matrix evt = (b, []) := by
    intro b evt id hid hmem
    simp [Bridge.handle_matrix, hid, hmem]
  refine ⟨hdup, ?_⟩
  intro b evt id hid
  by_cases hmem : id ∈ b.seen_events
  · rw [hdup b evt id hid hmem]
    exact hdup b evt id hid hmem
  · have hseen : ((b.handle_matrix evt).1).seen_events = b.seen_events ++ [id] := by
      simp [Bridge.handle_matrix, hid, hmem, dispatch_event_seen]
    exact hdup _ evt id hid (by rw [hseen]; simp)

/-- C4 witness: a bridge that has already seen event id `e1` drops a
re-delivered event carrying `e1` unchanged. -/
theorem claim_C4_witness :
    ({ id := some "e1", data := EventData.Typing "" } : Event).id = some "e1"
  ∧ ("e1" : EventID) ∈ (({ rooms := [], seen_events := ["e1"], uid := none } : Bridge)).seen_events
  ∧ ({ rooms := [], seen_events := ["e1"], uid := none } : Bridge).handle_matrix
      { id := some "e1", data := EventData.Typing "" }
      = ({ rooms := [], seen_events := ["e1"], uid := none }, []) :=
  ⟨rfl, by decide,
    claim_C4.1 { rooms := [], seen_events := ["e1"], uid := none }
      { id := some "e1", data := EventData.Typing "" } "e1" rfl (by decide)⟩

/-- C5: `finishSync` resolves displayName by priority — (a) the first alias
ending in `:<selfHomeserver>`, else (b) the canonical alias, else (c) the
first alias, else (d) the synthesized `#<id>:<homeserver>` — and on the
spec's examples: aliases `["#a:other.org", "#b:home.org"]` with self user on
`home.org` resolve to `"#b:home.org"` (with or without a canonical alias
set), and a room with no aliases and no canonical alias resolves to the
synthesized fallback name. -/
theorem claim_C5 :
    (∀ (r : Room) (me : UserID) (a : String), r.irc_name = none →
        r.aliases.find? (fun al => strEndsWith al (strTrim (":" ++ me.homeserver)))
          = some a →
        ((r.finish_sync me).1).irc_name = some a)
  ∧ (∀ (r : Room) (me : UserID) (c : String), r.irc_name = none →
        r.aliases.find? (fun al => strEndsWith al (strTrim (":" ++ me.homeserver)))
          = none →
        r.canonical_alias = some c →
        ((r.finish_sync me).1).irc_name = some c)
  ∧ (∀ (r : Room) (me : UserID) (a : String) (rest : List String),
        r.irc_name = none →
        r.aliases.find? (fun al => strEndsWith al (strTrim (":" ++ me.homeserver)))
          = none →
        r.canonical_alias = none → r.aliases = a :: rest →
        ((r.finish_sync me).1).irc_name = some a)
  ∧ (∀ (r : Room) (me : UserID), r.irc_name = none →
        r.canonical_alias = none → r.aliases = [] →
        ((r.finish_sync me).1).irc_name
          = some ("#" ++ r.id.id ++ ":" ++ r.id.homeserver))
  ∧ ((({ Room.new { id := "r", homeserver := "other.org" } with
          aliases := ["#a:other.org", "#b:home.org"] } : Room).finish_sync
            selfHome).1).irc_name = some "#b:home.org"
  ∧ ((({ Room.new { id := "r", homeserver := "other.org" } with
          aliases := ["#a:other.org", "#b:home.org"]
          canonical_alias := some "#a:other.org" } : Room).finish_sync
            selfHome).1).irc_name = some "#b:home.org"
  ∧ (((Room.new { id := "roomid", homeserver := "hs.org" }).finish_sync
        selfHome).1).irc_name = some "#roomid:hs.org" := by
  refine ⟨?_, ?_, ?_, ?_, by decide, by decide, by decide⟩
  · intro r me a h0 hfind
    have hres : r.resolve_name me = some a := by
      simp [Room.resolve_name, hfind]
    rw [finish_sync_resolved r me a hres]
  · intro r me c h0 hfind hca
    have hres : r.resolve_name me = some c := by
      simp [Room.resolve_name, hfind, h0, hca]
    rw [finish_sync_resolved r me c hres]
  · intro r me a rest h0 hfind hca hal
    have hres : r.resolve_name me = some a := by
      simp only [Room.resolve_name, hfind]
      simp only [h0, hca, hal]
    rw [finish_sync_resolved r me a hres]
  · intro r me h0 hca hal
    have hres : r.resolve_name me
        = some ("#" ++ r.id.id ++ ":" ++ r.id.homeserver) := by
      simp only [Room.resolve_name, hal, List.find?_nil]
      simp only [h0, hca]
    rw [finish_sync_resolved r me _ hres]

/-- C5 witness: the homeserver-matching-alias clause evaluated on the
sample buffered room. -/
theorem claim_C5_witness :
    bufferedRoom.irc_name = none
  ∧ bufferedRoom.aliases.find?
      (fun al => strEndsWith al (strTrim (":" ++ selfUser.homeserver)))
      = some "#x:h"
  ∧ ((bufferedRoom.finish_sync selfUser).1).irc_name = some "#x:h" :=
  ⟨rfl, by decide, claim_C5.1 bufferedRoom selfUser "#x:h" rfl (by decide)⟩

/-- C7 (counterexample): the claim states that on login failure a message
reporting the failure is sent to the local Protocol-A connection.  On the
code, a failed `matrix.login` short-circuits both `and_then` continuations
and `.expect("Could not login!")` panics (bridge.rs 377-385): the session
is indeed aborted and no sync or poll loop starts, but NOTHING is written
to the local connection — the panic text goes to the process, not the IRC
client. -/
theorem claim_C7_counterexample :
    (handle_user_cmd false true).panicked = true
  ∧ (handle_user_cmd false true).syncStarted = false
  ∧ (handle_user_cmd false true).failureReportedToClient = false := by
  exact ⟨rfl, rfl, rfl⟩

/-- C7 (amended): when the Protocol-B login call fails during the local
credential handshake the failure is fatal to the session — the session is
aborted by a panic and the process does not continue half-authenticated (no
sync is performed, no poll loop is started, no welcome is sent) — but no
message reporting the failure is sent to the local Protocol-A connection. -/
theorem claim_C7_amended (syncOk : Bool) :
    handle_user_cmd false syncOk
      = { syncStarted := false, pollStarted := false, welcomeSent := false,
          failureReportedToClient := false, panicked := true } := by
  cases syncOk <;> rfl

/-- C8: a local chat-message command whose target channel matches no room's
displayName is silently dropped — the channel scan returns nothing, no
Protocol-B message-send request is issued, nothing is reported to the local
client, and the bridge state (rooms and dedup ledger) is unchanged. -/
theorem claim_C8 (b : Bridge) (target body : String) (x : EventID)
    (h : ∀ p ∈ b.rooms, p.2.irc_name ≠ some target) :
    b.room_from_irc target = none
  ∧ b.handle_privmsg target body x = (b, none) := by
  have hscan : b.room_from_irc target = none := room_scan_none target b.rooms h
  exact ⟨hscan, by simp [Bridge.handle_privmsg, hscan]⟩

/-- C8 witness: the sample bridge (whose only room is exposed as `#x:h`)
silently drops a PRIVMSG to the unknown channel `#nope`. -/
theorem claim_C8_witness :
    (∀ p ∈ sampleBridge.rooms, p.2.irc_name ≠ some "#nope")
  ∧ (sampleBridge.room_from_irc "#nope" = none
    ∧ sampleBridge.handle_privmsg "#nope" "hi there" "e9" = (sampleBridge, none)) :=
  ⟨by decide, claim_C8 sampleBridge "#nope" "hi there" "e9" (by decide)⟩

/-- C9: an event with no id bypasses deduplication entirely — it is always
dispatched and never recorded into `seenEvents`; the end-of-sync marker
built by `Client::sync` carries no id and dispatches to the bridge-wide
`finish_sync`; hence a second end-of-sync marker re-runs `finish_sync` on
every room, emitting the JOIN and roster (353) notifications a second
time. -/
theorem claim_C9 :
    (∀ (b : Bridge) (evt : Event), evt.id = none →
        b.handle_matrix evt = b.dispatch_event evt.data
      ∧ ((b.handle_matrix evt).1).seen_events = b.seen_events)
  ∧ syncEndMarker.id = none
  ∧ (∀ b : Bridge, b.dispatch_event EventData.EndOfSync = b.finish_sync)
  ∧ ((sampleBridge.handle_matrix syncEndMarker).1.handle_matrix syncEndMarker).2
      = (sampleBridge.handle_matrix syncEndMarker).2
  ∧ ((sampleBridge.handle_matrix syncEndMarker).2).map (fun m => m.command)
      = [Command.Join, Command.Numeric 353] := by
  refine ⟨?_, rfl, fun b => rfl, by decide, by decide⟩
  intro b evt hid
  constructor
  · simp [Bridge.handle_matrix, hid]
  · simp [Bridge.handle_matrix, hid, dispatch_event_seen]

/-- C9 witness: the no-id clause evaluated on the sample bridge and the
end-of-sync marker. -/
theorem claim_C9_witness :
    syncEndMarker.id = none
  ∧ (sampleBridge.handle_matrix syncEndMarker
      = sampleBridge.dispatch_event syncEndMarker.data
    ∧ ((sampleBridge.handle_matrix syncEndMarker).1).seen_events
      = sampleBridge.seen_events) :=
  ⟨rfl, claim_C9.1 sampleBridge syncEndMarker rfl⟩

end Pto
